import Mathlib

/-!
# Verification of the booking ETL pipeline core

A shallow embedding of the two core stages of the booking ETL repository:

* `extract_all_pages` (from `extract.py`): the paginated fetch loop, modelled
  over an abstract transport `fetch : Nat → Except Unit (PageResponse α)`.
  The pair returned by the embedding records, in order, the pages actually
  requested (the trace of `requests.get` calls) together with either the
  accumulated records or the first error raised.
* `transform_data` (from `transform.py`): the pandas cleaning pipeline,
  modelled over explicit rows (association lists of column name to cell
  value).  `pd.to_datetime(—, errors="coerce")` is kept abstract as a
  parameter `parse : Value → Option Nat`; a concrete ISO-date instance
  `isoParse` is provided for evaluation.
-/

namespace ETL

/-- Decidable equality of `Except` results, for evaluating the pipeline on
concrete inputs. -/
instance {ε α : Type} [DecidableEq ε] [DecidableEq α] : DecidableEq (Except ε α) :=
  fun a b =>
    match a, b with
    | .error x, .error y =>
      if h : x = y then isTrue (by rw [h])
      else isFalse (fun c => by injection c; exact h (by assumption))
    | .ok x, .ok y =>
      if h : x = y then isTrue (by rw [h])
      else isFalse (fun c => by injection c; exact h (by assumption))
    | .error _, .ok _ => isFalse (fun c => by injection c)
    | .ok _, .error _ => isFalse (fun c => by injection c)

/-- A cell value of a raw or cleaned record.  `null` models both a missing
key and Python `None`/`NaN`/`NaT` (pandas treats all of them as missing in
`dropna` and in comparisons); `date d` models a parsed `datetime64` value,
encoded as `y*10000 + m*100 + d` so that the lexicographic order on
(year, month, day) agrees with the order on `Nat`. -/
inductive Value where
  | str (s : String)
  | int (n : Int)
  | date (d : Nat)
  | null
deriving DecidableEq

/-- A record / DataFrame row: an association list from column name to value.
A key absent from the list models a cell that is `NaN` in the DataFrame. -/
abbrev Row := List (String × Value)

/-- Reading a cell: the value of the first binding of the column, `null`
(pandas `NaN`) when the row has no such column. -/
def getCell (r : Row) (c : String) : Value :=
  ((r.find? (fun p => p.1 == c)).map Prod.snd).getD Value.null

/-- Does the row itself carry a binding for the column? -/
def hasKey (r : Row) (c : String) : Bool :=
  r.any (fun p => p.1 == c)

/-- Column assignment `df[c] = v` restricted to one row: replace every
binding of `c`, or append one if the row has none. -/
def setCell (r : Row) (c : String) (v : Value) : Row :=
  if hasKey r c then r.map (fun p => if p.1 == c then (c, v) else p)
  else r ++ [(c, v)]

/-- `pd.DataFrame(records)` creates a column for every key appearing in some
record; `hasCol` is membership in that column set. -/
def hasCol (records : List Row) (c : String) : Bool :=
  records.any (fun r => hasKey r c)

/-- The column list of `pd.DataFrame(records)`: every key appearing in some
record (order of first appearance is irrelevant to the development, `dedup`
is used only to keep the list duplicate-free). -/
def colsOf (records : List Row) : List String :=
  ((records.map (fun r => r.map Prod.fst)).flatten).dedup

/-- A DataFrame: its column labels together with its rows.  Keeping the
columns separately matters only for empty frames, which still carry their
columns in pandas. -/
structure DF where
  cols : List String
  rows : List Row
deriving DecidableEq

/-- `pd.DataFrame(records)` for a list of dict-like records. -/
def toDF (records : List Row) : DF :=
  ⟨colsOf records, records⟩

/-! ## Text cleaning: `.astype(str).str.strip().str.title()` -/

/-- Python `str()` of a cell, as applied by `.astype(str)`:
strings unchanged, numbers printed, missing values become `"nan"`. -/
def valueToStr : Value → String
  | .str s => s
  | .int n => toString n
  | .date d => toString d
  | .null => "nan"

/-- The six characters stripped by Python `str.strip()` with no argument:
space, tab, newline, vertical tab, form feed, carriage return. -/
def pyIsSpace (c : Char) : Bool :=
  c.toNat == 32 || c.toNat == 9 || c.toNat == 10 ||
  c.toNat == 11 || c.toNat == 12 || c.toNat == 13

/-- ASCII letter test, the cased-character test of `str.title()` restricted
to ASCII (the repository data is ASCII). -/
def isAsciiAlpha (c : Char) : Bool :=
  (65 ≤ c.toNat && c.toNat ≤ 90) || (97 ≤ c.toNat && c.toNat ≤ 122)

/-- One character of `str.title()`: a letter is upper-cased when the
previous character was not a letter, lower-cased otherwise; other
characters pass through. -/
def titleChar (prevAlpha : Bool) (c : Char) : Char :=
  if isAsciiAlpha c then (if prevAlpha then c.toLower else c.toUpper) else c

/-- `str.title()` on a character list, tracking whether the previous
character was a letter. -/
def titleAux : Bool → List Char → List Char
  | _, [] => []
  | b, c :: cs => titleChar b c :: titleAux (isAsciiAlpha c) cs

/-- Python `str.title()`. -/
def pyTitle (l : List Char) : List Char := titleAux false l

/-- Python `str.strip()`: drop whitespace from the front, then from the
back. -/
def pyStrip (l : List Char) : List Char :=
  List.rdropWhile pyIsSpace (l.dropWhile pyIsSpace)

/-- `.str.strip().str.title()` on a string. -/
def cleanText (s : String) : String :=
  ⟨pyTitle (pyStrip s.data)⟩

/-! ## Date parsing -/

/-- `NaT` for a failed parse, a `datetime` cell for a successful one. -/
def optDate : Option Nat → Value
  | some d => Value.date d
  | none => Value.null

/-- The pandas comparison `check_out >= check_in` on two cells: `true` only
when both cells are parsed dates (comparisons against `NaT` are `False`). -/
def cmpGe : Value → Value → Bool
  | .date a, .date b => b ≤ a
  | _, _ => false

/-! ## The transform pipeline (`transform_data` in `transform.py`) -/

/-- The value of the `booking_id` cell of a row. -/
def keyOf (r : Row) : Value := getCell r "booking_id"

/-- `df.drop_duplicates(subset=["booking_id"], keep="last")`: a row is kept
exactly when no later row carries the same `booking_id`; kept rows stay in
their original relative order. -/
def dedupLast : List Row → List Row
  | [] => []
  | r :: rs =>
    if rs.any (fun x => keyOf x == keyOf r) then dedupLast rs
    else r :: dedupLast rs

/-- The per-row effect of the four column assignments of `transform_data`:
parse the two date columns, clean the two text columns.  All reads are from
the incoming row, faithfully to the source, where each column is read once
before it is overwritten. -/
def cleanRow (parse : Value → Option Nat) (r : Row) : Row :=
  setCell (setCell (setCell (setCell r
    "check_in_date" (optDate (parse (getCell r "check_in_date"))))
    "check_out_date" (optDate (parse (getCell r "check_out_date"))))
    "owner_company" (Value.str (cleanText (valueToStr (getCell r "owner_company")))))
    "owner_company_country" (Value.str (cleanText (valueToStr (getCell r "owner_company_country"))))

/-- The columns whose absence makes `transform_data` raise `KeyError`, in
the order in which the source touches them: `dropna(subset=["booking_id"])`
first, then the two date assignments, then the two text assignments. -/
def requiredCols : List String :=
  ["booking_id", "check_in_date", "check_out_date", "owner_company", "owner_company_country"]

/-- The date-order filter `df[df["check_out_date"] >= df["check_in_date"]]`
restricted to one (already cleaned) row. -/
def dateOrderOk (r : Row) : Bool :=
  cmpGe (getCell r "check_out_date") (getCell r "check_in_date")

/-- `transform_data` on a DataFrame.  A missing required column surfaces as
`Except.error` naming the column (the `KeyError` branch of the source); the
happy path drops null `booking_id`s, deduplicates keeping the last
occurrence, applies the four column assignments and the date-order filter.
The column labels of the frame are unchanged throughout. -/
def transformDF (parse : Value → Option Nat) (df : DF) : Except String DF :=
  match requiredCols.find? (fun c => !(df.cols.contains c)) with
  | some c => Except.error c
  | none =>
    let r1 := df.rows.filter (fun r => decide (keyOf r ≠ Value.null))
    let r2 := dedupLast r1
    let r3 := r2.map (cleanRow parse)
    let r4 := r3.filter dateOrderOk
    Except.ok ⟨df.cols, r4⟩

/-- `transform_data(records)` for a list of raw records, as called from the
pipeline: build the DataFrame, then clean it. -/
def transform_data (parse : Value → Option Nat) (records : List Row) : Except String DF :=
  transformDF parse (toDF records)

/-! ## A concrete date parser for evaluation

`pd.to_datetime(—, errors="coerce")` restricted to the shapes the claims
exercise: already-parsed datetimes pass through unchanged, strings must be
valid ISO `YYYY-MM-DD` calendar dates, everything else coerces to `NaT`. -/

/-- Gregorian leap year. -/
def isLeap (y : Nat) : Bool :=
  (y % 4 == 0 && y % 100 != 0) || (y % 400 == 0)

/-- Days in a month of the Gregorian calendar. -/
def daysInMonth (y m : Nat) : Nat :=
  if m == 2 then (if isLeap y then 29 else 28)
  else if m == 4 || m == 6 || m == 9 || m == 11 then 30
  else 31

/-- Digit-string to number, `none` when empty or not all digits. -/
def digitsToNat : List Char → Option Nat
  | [] => none
  | l =>
    if l.all (fun c => c.isDigit) then
      some (l.foldl (fun a c => a * 10 + (c.toNat - 48)) 0)
    else none

/-- Split a character list at each dash. -/
def splitDash (l : List Char) : List (List Char) :=
  l.splitOnP (fun c => c == '-')

/-- Parse `YYYY-MM-DD` into the `y*10000 + m*100 + d` encoding, validating
the calendar. -/
def parseIsoDate (s : String) : Option Nat :=
  match splitDash s.data with
  | [ys, ms, ds] =>
    match digitsToNat ys, digitsToNat ms, digitsToNat ds with
    | some y, some m, some d =>
      if 1 ≤ m ∧ m ≤ 12 ∧ 1 ≤ d ∧ d ≤ daysInMonth y m ∧ y ≤ 9999 then
        some (y * 10000 + m * 100 + d)
      else none
    | _, _, _ => none
  | _ => none

/-- The concrete instance of the `parse` parameter used for evaluation. -/
def isoParse : Value → Option Nat
  | .date d => some d
  | .str s => parseIsoDate s
  | _ => none

/-! ## Concrete example records (used to evaluate the pipeline) -/

/-- The spec's dedup example, first record: id 1, January stay. -/
def exBooking1 : Row :=
  [("booking_id", Value.int 1), ("check_in_date", Value.str "2024-01-01"),
   ("check_out_date", Value.str "2024-01-05"), ("owner_company", Value.str "  acme corp  "),
   ("owner_company_country", Value.str "uk")]

/-- The spec's dedup example, second record: same id 1, February stay. -/
def exBooking2 : Row :=
  [("booking_id", Value.int 1), ("check_in_date", Value.str "2024-02-01"),
   ("check_out_date", Value.str "2024-02-05"), ("owner_company", Value.str "  acme corp  "),
   ("owner_company_country", Value.str "uk")]

/-- A record with an unparseable check-in date. -/
def exBadDate : Row :=
  [("booking_id", Value.int 2), ("check_in_date", Value.str "not-a-date"),
   ("check_out_date", Value.str "2024-01-05"), ("owner_company", Value.str "b"),
   ("owner_company_country", Value.str "fr")]

/-- A record whose check-out precedes its check-in. -/
def exReversed : Row :=
  [("booking_id", Value.int 3), ("check_in_date", Value.str "2024-03-10"),
   ("check_out_date", Value.str "2024-03-01"), ("owner_company", Value.str "c"),
   ("owner_company_country", Value.str "de")]

/-- A valid record with no `owner_company_country` key at all. -/
def exNoCountry : Row :=
  [("booking_id", Value.int 4), ("check_in_date", Value.str "2024-04-01"),
   ("check_out_date", Value.str "2024-04-02"), ("owner_company", Value.str "d")]

/-- A valid record carrying a sixth field beyond the five named ones. -/
def exExtra : Row :=
  [("booking_id", Value.int 5), ("check_in_date", Value.str "2024-05-01"),
   ("check_out_date", Value.str "2024-05-02"), ("owner_company", Value.str "e"),
   ("owner_company_country", Value.str "es"), ("extra_field", Value.int 99)]

/-! ## The extract loop (`extract_all_pages` in `extract.py`) -/

/-- One JSON page payload: `total` is `none` when the key is absent (or
null, which `.get` conflates with absence), `results` is `none` when the
key is absent. -/
structure PageResponse (α : Type) where
  total : Option Nat
  results : Option (List α)

/-- The errors `extract_all_pages` can raise: a transport failure
(`requests.exceptions.RequestException`, from the request itself or
`raise_for_status`), a page whose payload lacks `results`, or a first page
whose payload lacks `total`.  Each carries the offending page. -/
inductive FetchError where
  | transport (page : Nat)
  | missingResults (page : Nat)
  | missingTotal
deriving DecidableEq

/-- The `for page in range(2, total_pages + 1)` loop: request each page in
turn, require `results`, extend the accumulator.  Returns the trace of
pages actually requested together with the outcome. -/
def fetchLoop (fetch : Nat → Except Unit (PageResponse α)) :
    List Nat → List α → List Nat × Except FetchError (List α)
  | [], acc => ([], Except.ok acc)
  | p :: ps, acc =>
    match fetch p with
    | Except.error _ => ([p], Except.error (FetchError.transport p))
    | Except.ok resp =>
      match resp.results with
      | none => ([p], Except.error (FetchError.missingResults p))
      | some rs =>
        let rest := fetchLoop fetch ps (acc ++ rs)
        (p :: rest.1, rest.2)

/-- `extract_all_pages`, over an abstract transport and page size: request
page 1, require `results` then `total`, compute
`total_pages = ceil(total / per_page)` and run the loop over pages
`2 .. total_pages`.  The first component is the trace of requested pages,
the second the outcome. -/
def extract_all_pages (fetch : Nat → Except Unit (PageResponse α))
    (per_page : Nat) : List Nat × Except FetchError (List α) :=
  match fetch 1 with
  | Except.error _ => ([1], Except.error (FetchError.transport 1))
  | Except.ok p1 =>
    match p1.results with
    | none => ([1], Except.error (FetchError.missingResults 1))
    | some recs =>
      match p1.total with
      | none => ([1], Except.error FetchError.missingTotal)
      | some total =>
        let total_pages := (total + per_page - 1) / per_page
        let rest := fetchLoop fetch (List.range' 2 (total_pages - 1)) recs
        (1 :: rest.1, rest.2)

/-! ## Lemmas about the fetch loop -/

theorem fetchLoop_ok {α : Type} (fetch : Nat → Except Unit (PageResponse α))
    (res : Nat → List α) (ps : List Nat) (acc : List α)
    (h : ∀ p ∈ ps, ∃ t, fetch p = Except.ok ⟨t, some (res p)⟩) :
    fetchLoop fetch ps acc = (ps, Except.ok (acc ++ (ps.map res).flatten)) := by
  induction ps generalizing acc with
  | nil => simp [fetchLoop]
  | cons p ps ih =>
    obtain ⟨t, ht⟩ := h p (List.mem_cons_self p ps)
    have hrest : ∀ q ∈ ps, ∃ u, fetch q = Except.ok ⟨u, some (res q)⟩ :=
      fun q hq => h q (List.mem_cons_of_mem _ hq)
    simp [fetchLoop, ht, ih (acc ++ res p) hrest, List.append_assoc]

theorem fetchLoop_error_results {α : Type} (fetch : Nat → Except Unit (PageResponse α))
    (res : Nat → List α) (ps₁ : List Nat) (p : Nat) (ps₂ : List Nat) (acc : List α)
    (t : Option Nat)
    (hok : ∀ q ∈ ps₁, ∃ u, fetch q = Except.ok ⟨u, some (res q)⟩)
    (hbad : fetch p = Except.ok ⟨t, none⟩) :
    fetchLoop fetch (ps₁ ++ p :: ps₂) acc =
      (ps₁ ++ [p], Except.error (FetchError.missingResults p)) := by
  induction ps₁ generalizing acc with
  | nil => simp [fetchLoop, hbad]
  | cons q qs ih =>
    obtain ⟨u, hu⟩ := hok q (List.mem_cons_self q qs)
    have hrest : ∀ x ∈ qs, ∃ u, fetch x = Except.ok ⟨u, some (res x)⟩ :=
      fun x hx => hok x (List.mem_cons_of_mem _ hx)
    simp [fetchLoop, hu, ih (acc ++ res q) hrest]

theorem fetchLoop_error_transport {α : Type} (fetch : Nat → Except Unit (PageResponse α))
    (res : Nat → List α) (ps₁ : List Nat) (p : Nat) (ps₂ : List Nat) (acc : List α)
    (hok : ∀ q ∈ ps₁, ∃ u, fetch q = Except.ok ⟨u, some (res q)⟩)
    (hbad : fetch p = Except.error ()) :
    fetchLoop fetch (ps₁ ++ p :: ps₂) acc =
      (ps₁ ++ [p], Except.error (FetchError.transport p)) := by
  induction ps₁ generalizing acc with
  | nil => simp [fetchLoop, hbad]
  | cons q qs ih =>
    obtain ⟨u, hu⟩ := hok q (List.mem_cons_self q qs)
    have hrest : ∀ x ∈ qs, ∃ u, fetch x = Except.ok ⟨u, some (res x)⟩ :=
      fun x hx => hok x (List.mem_cons_of_mem _ hx)
    simp [fetchLoop, hu, ih (acc ++ res q) hrest]

/-- Splitting the page range `2 .. N` at an interior page `p`. -/
theorem range'_split_at (p N : Nat) (h2 : 2 ≤ p) (hN : p ≤ N) :
    List.range' 2 (N - 1) = List.range' 2 (p - 2) ++ p :: List.range' (p + 1) (N - p) := by
  have h1 : List.range' 2 (p - 2) ++ List.range' (2 + 1 * (p - 2)) (N - 1 - (p - 2)) =
      List.range' 2 (N - 1 - (p - 2) + (p - 2)) := List.range'_append 2 (p - 2) (N - 1 - (p - 2)) 1
  have h2p : 2 + 1 * (p - 2) = p := by omega
  have h3 : N - 1 - (p - 2) + (p - 2) = N - 1 := by omega
  have h4 : N - 1 - (p - 2) = (N - p) + 1 := by omega
  rw [h2p, h3, h4] at h1
  rw [← h1, List.range'_succ]

/-- The page list `1 .. p` split as page 1, the pages `2 .. p-1`, and `p`. -/
theorem range'_one_eq (p : Nat) (h2 : 2 ≤ p) :
    List.range' 1 p = 1 :: (List.range' 2 (p - 2) ++ [p]) := by
  have e1 : List.range' 1 p = 1 :: List.range' 2 (p - 1) := by
    conv_lhs => rw [show p = (p - 1) + 1 from by omega]
    rw [List.range'_succ]
  have e3 : List.range' 2 ((p - 2) + 1) = List.range' 2 (p - 2) ++ [2 + 1 * (p - 2)] :=
    List.range'_concat 2 (p - 2)
  have e4 : 2 + 1 * (p - 2) = p := by omega
  rw [e1, show p - 1 = (p - 2) + 1 from by omega, e3, e4]

/-- C1: for every valid response sequence (page 1 carrying both `total` and
`results`, every later page carrying `results`), `extract_all_pages`
requests exactly pages `1` through `ceil(total / per_page)` (page 1 is
always requested, so for `ceil ≤ 1` the trace is just `[1]`) and returns
the concatenation of the pages' results in page order; when
`ceil(total / per_page) ≤ 1` no page-2 request is issued and the result is
exactly page 1's records. -/
theorem claim_C1_pagination {α : Type} (fetch : Nat → Except Unit (PageResponse α))
    (per_page total : Nat) (res : Nat → List α)
    (hpp : 0 < per_page)
    (h1 : fetch 1 = Except.ok ⟨some total, some (res 1)⟩)
    (hrest : ∀ p, 2 ≤ p → p ≤ (total + per_page - 1) / per_page →
      ∃ t, fetch p = Except.ok ⟨t, some (res p)⟩) :
    extract_all_pages fetch per_page =
      (List.range' 1 (max ((total + per_page - 1) / per_page) 1),
       Except.ok ((List.range' 1 (max ((total + per_page - 1) / per_page) 1)).map res).flatten)
    ∧ ((total + per_page - 1) / per_page ≤ 1 →
       extract_all_pages fetch per_page = ([1], Except.ok (res 1))) := by
  have _ := hpp
  set N := (total + per_page - 1) / per_page with hN
  have hloop : ∀ q ∈ List.range' 2 (N - 1), ∃ t, fetch q = Except.ok ⟨t, some (res q)⟩ := by
    intro q hq
    rw [List.mem_range'] at hq
    obtain ⟨i, hi, rfl⟩ := hq
    exact hrest _ (by omega) (by omega)
  have hfl := fetchLoop_ok fetch res (List.range' 2 (N - 1)) (res 1) hloop
  have hrange : List.range' 1 (max N 1) = 1 :: List.range' 2 (N - 1) := by
    have hm : max N 1 = (N - 1) + 1 := by omega
    rw [hm, List.range'_succ]
  have hmain : extract_all_pages fetch per_page =
      (List.range' 1 (max N 1), Except.ok ((List.range' 1 (max N 1)).map res).flatten) := by
    simp [extract_all_pages, h1, hfl, hrange]
  refine ⟨hmain, fun hle => ?_⟩
  have hm1 : max N 1 = 1 := by omega
  rw [hmain, hm1]
  simp [List.range']

/-- C1 witness: `total = 120`, `per_page = 50`, every page `p` answering
`[p]`: pages 1, 2, 3 are requested and the three pages are concatenated in
order. -/
theorem claim_C1_pagination_witness :
    extract_all_pages (fun p => Except.ok ⟨some 120, some [p]⟩) 50 =
      ([1, 2, 3], Except.ok [1, 2, 3]) := by
  have h := (claim_C1_pagination (fun p => Except.ok ⟨some 120, some [p]⟩) 50 120
    (fun p => [p]) (by decide) rfl (fun p _ _ => ⟨some 120, rfl⟩)).1
  simpa using h

/-- C5: `extract_all_pages` fails with the malformed-response error and
returns no records whenever page 1 lacks `results`, whenever page 1 lacks
`total`, and whenever a later requested page lacks `results` (the error
naming the offending page); in each case the fetch stops at the offending
page. -/
theorem claim_C5_malformed {α : Type} (fetch : Nat → Except Unit (PageResponse α))
    (per_page : Nat) :
    (∀ t, fetch 1 = Except.ok ⟨t, none⟩ →
      extract_all_pages fetch per_page = ([1], Except.error (FetchError.missingResults 1)))
  ∧ (∀ rs : List α, fetch 1 = Except.ok ⟨none, some rs⟩ →
      extract_all_pages fetch per_page = ([1], Except.error FetchError.missingTotal))
  ∧ (∀ (total p : Nat) (res : Nat → List α) (t : Option Nat),
      fetch 1 = Except.ok ⟨some total, some (res 1)⟩ →
      2 ≤ p → p ≤ (total + per_page - 1) / per_page →
      (∀ q, 2 ≤ q → q < p → ∃ u, fetch q = Except.ok ⟨u, some (res q)⟩) →
      fetch p = Except.ok ⟨t, none⟩ →
      extract_all_pages fetch per_page =
        (List.range' 1 p, Except.error (FetchError.missingResults p))) := by
  refine ⟨fun t h1 => by simp [extract_all_pages, h1],
          fun rs h1 => by simp [extract_all_pages, h1],
          fun total p res t h1 h2 hpN hok hbad => ?_⟩
  set N := (total + per_page - 1) / per_page with hN
  have hsplit := range'_split_at p N h2 hpN
  have hok1 : ∀ q ∈ List.range' 2 (p - 2), ∃ u, fetch q = Except.ok ⟨u, some (res q)⟩ := by
    intro q hq
    rw [List.mem_range'] at hq
    obtain ⟨i, hi, rfl⟩ := hq
    exact hok _ (by omega) (by omega)
  have hfl := fetchLoop_error_results fetch res (List.range' 2 (p - 2)) p
    (List.range' (p + 1) (N - p)) (res 1) t hok1 hbad
  rw [range'_one_eq p h2]
  simp [extract_all_pages, h1, hsplit, hfl]

/-- C5 witness: page 1 reports `total = 150` but page 2 answers without
`results`: the fetch stops at page 2 with the malformed-response error. -/
theorem claim_C5_malformed_witness :
    extract_all_pages
      (fun p => if p == 1 then Except.ok ⟨some 150, some [(1 : Nat)]⟩
                else Except.ok ⟨none, none⟩) 50 =
      ([1, 2], Except.error (FetchError.missingResults 2)) := by
  have h := (claim_C5_malformed
    (fun p => if p == 1 then Except.ok ⟨some 150, some [(1 : Nat)]⟩
              else Except.ok ⟨none, none⟩) 50).2.2 150 2 (fun _ => [1]) none
    rfl (by omega) (by decide) (fun q h2 hq => by omega) rfl
  simpa using h

/-- C9: as soon as the transport call for a requested page fails,
`extract_all_pages` fails with the transport error naming that page: the
trace is exactly pages `1 .. q` (the failed request is issued once and not
retried, no page after it is requested) and no records at all are
returned. -/
theorem claim_C9_transport {α : Type} (fetch : Nat → Except Unit (PageResponse α))
    (per_page q total : Nat) (res : Nat → List α)
    (h1q : 2 ≤ q → fetch 1 = Except.ok ⟨some total, some (res 1)⟩)
    (hvalid : ∀ p, 2 ≤ p → p < q → ∃ u, fetch p = Except.ok ⟨u, some (res p)⟩)
    (hq1 : 1 ≤ q) (hqN : q ≤ max ((total + per_page - 1) / per_page) 1)
    (herr : fetch q = Except.error ()) :
    extract_all_pages fetch per_page =
      (List.range' 1 q, Except.error (FetchError.transport q)) := by
  rcases Nat.lt_or_ge q 2 with hq2 | hq2
  · have hq : q = 1 := by omega
    subst hq
    simp [extract_all_pages, herr, List.range']
  · have h1 := h1q hq2
    set N := (total + per_page - 1) / per_page with hN
    have hqN2 : q ≤ N := by omega
    have hsplit := range'_split_at q N hq2 hqN2
    have hok1 : ∀ x ∈ List.range' 2 (q - 2), ∃ u, fetch x = Except.ok ⟨u, some (res x)⟩ := by
      intro x hx
      rw [List.mem_range'] at hx
      obtain ⟨i, hi, rfl⟩ := hx
      exact hvalid _ (by omega) (by omega)
    have hfl := fetchLoop_error_transport fetch res (List.range' 2 (q - 2)) q
      (List.range' (q + 1) (N - q)) (res 1) hok1 herr
    rw [range'_one_eq q hq2]
    simp [extract_all_pages, h1, hsplit, hfl]

/-- C9 witness: page 1 reports `total = 120`, the transport call for page 2
fails: the fetch aborts with the transport error for page 2, having
requested exactly pages 1 and 2, and returns no records. -/
theorem claim_C9_transport_witness :
    extract_all_pages
      (fun p => if p == 1 then Except.ok ⟨some 120, some [(7 : Nat)]⟩
                else Except.error ()) 50 =
      ([1, 2], Except.error (FetchError.transport 2)) := by
  have h := claim_C9_transport
    (fun p => if p == 1 then Except.ok ⟨some 120, some [(7 : Nat)]⟩
              else Except.error ()) 50 2 120 (fun _ => [7])
    (fun _ => rfl) (fun p h2 hp => by omega) (by omega) (by decide) rfl
  simpa using h



/-! ## Lemmas about rows and cells -/

theorem any_congr_mem {α : Type} {l : List α} {f g : α → Bool}
    (h : ∀ x ∈ l, f x = g x) : l.any f = l.any g := by
  induction l with
  | nil => rfl
  | cons x l ih =>
    rw [List.any_cons, List.any_cons, h x (List.mem_cons_self x l),
      ih (fun y hy => h y (List.mem_cons_of_mem _ hy))]

theorem find?_overwrite (r : Row) (k : String) (v : Value) :
    List.find? (fun p => p.1 == k) (r.map (fun p => if p.1 == k then (k, v) else p)) =
      if hasKey r k then some (k, v) else none := by
  induction r with
  | nil => simp [hasKey]
  | cons p r ih =>
    rw [List.map_cons]
    by_cases hp : (p.1 == k) = true
    · rw [if_pos hp, List.find?_cons_of_pos _ (by simp),
        if_pos (by simp [hasKey, List.any_cons, hp])]
    · rw [if_neg hp, List.find?_cons_of_neg _ (by simpa using hp), ih]
      have he : hasKey (p :: r) k = hasKey r k := by simp [hasKey, List.any_cons, hp]
      rw [he]

theorem find?_overwrite_ne (r : Row) (k k' : String) (v : Value) (h : ¬ k' = k) :
    List.find? (fun p => p.1 == k') (r.map (fun p => if p.1 == k then (k, v) else p)) =
      List.find? (fun p => p.1 == k') r := by
  induction r with
  | nil => simp
  | cons p r ih =>
    rw [List.map_cons]
    by_cases hp : (p.1 == k) = true
    · have hp2 : p.1 = k := by simpa using hp
      have hk : ¬ ((k, v).1 == k') = true := by
        simp only [beq_iff_eq]
        exact fun e => h e.symm
      have hk2 : ¬ (p.1 == k') = true := by
        simp only [beq_iff_eq, hp2]
        exact fun e => h e.symm
      rw [if_pos hp, List.find?_cons_of_neg (p := fun q : String × Value => q.1 == k') _ hk,
        List.find?_cons_of_neg (p := fun q : String × Value => q.1 == k') _ hk2, ih]
    · rw [if_neg hp]
      by_cases hpk : (p.1 == k') = true
      · rw [List.find?_cons_of_pos (p := fun q : String × Value => q.1 == k') _ hpk,
          List.find?_cons_of_pos (p := fun q : String × Value => q.1 == k') _ hpk]
      · rw [List.find?_cons_of_neg (p := fun q : String × Value => q.1 == k') _ hpk,
          List.find?_cons_of_neg (p := fun q : String × Value => q.1 == k') _ hpk, ih]

theorem not_hasKey_find? (r : Row) (k : String) (h : hasKey r k = false) :
    List.find? (fun p => p.1 == k) r = none := by
  rw [List.find?_eq_none]
  intro x hx
  exact fun hc => (List.any_eq_false.mp h x hx) hc

theorem getCell_setCell_same (r : Row) (k : String) (v : Value) :
    getCell (setCell r k v) k = v := by
  unfold getCell setCell
  by_cases hk : hasKey r k
  · rw [if_pos hk, find?_overwrite, if_pos hk]
    rfl
  · rw [if_neg hk, List.find?_append, not_hasKey_find? r k (by simpa using hk)]
    simp

theorem getCell_setCell_ne (r : Row) (k k' : String) (v : Value) (h : ¬ k' = k) :
    getCell (setCell r k v) k' = getCell r k' := by
  unfold getCell setCell
  by_cases hk : hasKey r k
  · rw [if_pos hk, find?_overwrite_ne r k k' v h]
  · rw [if_neg hk, List.find?_append]
    have h1 : List.find? (fun p => p.1 == k') [(k, v)] = none := by
      simp only [List.find?_singleton, beq_iff_eq]
      rw [if_neg (fun e => h e.symm)]
    rw [h1, Option.or_none]

theorem hasKey_setCell_same (r : Row) (k : String) (v : Value) :
    hasKey (setCell r k v) k = true := by
  unfold hasKey setCell
  by_cases hk : hasKey r k
  · rw [if_pos hk, List.any_map]
    obtain ⟨x, hx, hxk⟩ := List.any_eq_true.mp hk
    exact List.any_eq_true.mpr ⟨x, hx, by simp [Function.comp, hxk]⟩
  · rw [if_neg hk, List.any_append]
    simp

theorem hasKey_setCell_ne (r : Row) (k k' : String) (v : Value) (h : ¬ k' = k) :
    hasKey (setCell r k v) k' = hasKey r k' := by
  unfold hasKey setCell
  by_cases hk : hasKey r k
  · rw [if_pos hk, List.any_map]
    apply any_congr_mem
    intro x _
    by_cases hx : (x.1 == k) = true
    · have hx2 : x.1 = k := by simpa using hx
      simp [Function.comp, if_pos hx, hx2]
    · simp only [Function.comp, if_neg hx]
  · rw [if_neg hk, List.any_append]
    have he : (List.any [(k, v)] fun p => p.1 == k') = false := by
      simp only [List.any_cons, List.any_nil, Bool.or_false, beq_iff_eq]
      exact decide_eq_false (fun e => h e.symm)
    rw [he, Bool.or_false]

theorem mem_setCell_key (r : Row) (k : String) (v : Value) (p : String × Value)
    (hp : p ∈ setCell r k v) (hk : p.1 = k) : p.2 = v := by
  unfold setCell at hp
  by_cases h : hasKey r k
  · rw [if_pos h] at hp
    obtain ⟨q, _, hq⟩ := List.mem_map.mp hp
    by_cases hq1 : (q.1 == k) = true
    · rw [if_pos hq1] at hq
      rw [← hq]
    · rw [if_neg hq1] at hq
      exact absurd (by simp [hq, hk]) hq1
  · rw [if_neg h] at hp
    rcases List.mem_append.mp hp with hin | hin
    · have hh : hasKey r k = true := by
        unfold hasKey
        exact List.any_eq_true.mpr ⟨p, hin, by simp [hk]⟩
      exact absurd hh h
    · rw [List.mem_singleton.mp hin]

theorem mem_setCell_other (r : Row) (k : String) (v : Value) (p : String × Value)
    (hp : p ∈ setCell r k v) (hk : ¬ p.1 = k) : p ∈ r := by
  unfold setCell at hp
  by_cases h : hasKey r k
  · rw [if_pos h] at hp
    obtain ⟨q, hqr, hq⟩ := List.mem_map.mp hp
    by_cases hq1 : (q.1 == k) = true
    · rw [if_pos hq1] at hq
      exact absurd (by rw [← hq]) hk
    · rw [if_neg hq1] at hq
      rwa [← hq]
  · rw [if_neg h] at hp
    rcases List.mem_append.mp hp with hin | hin
    · exact hin
    · exact absurd (by rw [List.mem_singleton.mp hin]) hk

theorem setCell_eq_self (r : Row) (k : String) (v : Value)
    (h1 : hasKey r k = true) (h2 : ∀ p ∈ r, p.1 = k → p.2 = v) :
    setCell r k v = r := by
  unfold setCell
  rw [if_pos h1]
  conv_rhs => rw [← List.map_id r]
  apply List.map_congr_left
  intro p hp
  by_cases hpk : (p.1 == k) = true
  · have hk2 : p.1 = k := by simpa using hpk
    rw [if_pos hpk, id_eq]
    have := h2 p hp hk2
    exact Prod.ext hk2.symm this.symm
  · rw [if_neg hpk, id_eq]

/-! ## Lemmas about deduplication -/

theorem dedupLast_sublist (l : List Row) : (dedupLast l).Sublist l := by
  induction l with
  | nil => simp [dedupLast]
  | cons r rs ih =>
    rw [dedupLast]
    by_cases h : (rs.any fun x => keyOf x == keyOf r) = true
    · rw [if_pos h]
      exact ih.cons r
    · rw [if_neg h]
      exact ih.cons₂ r

theorem dedupLast_pairwise (l : List Row) :
    (dedupLast l).Pairwise (fun a b => keyOf a ≠ keyOf b) := by
  induction l with
  | nil => simp [dedupLast]
  | cons r rs ih =>
    rw [dedupLast]
    by_cases h : (rs.any fun x => keyOf x == keyOf r) = true
    · rwa [if_pos h]
    · rw [if_neg h]
      refine List.Pairwise.cons (fun x hx => ?_) ih
      have hxrs : x ∈ rs := (dedupLast_sublist rs).subset hx
      have hfalse : (rs.any fun y => keyOf y == keyOf r) = false := Bool.eq_false_iff.mpr h
      have hne := List.any_eq_false.mp hfalse x hxrs
      simp only [beq_iff_eq] at hne
      exact fun e => hne e.symm

theorem dedupLast_eq_self (l : List Row)
    (h : l.Pairwise (fun a b => keyOf a ≠ keyOf b)) : dedupLast l = l := by
  induction l with
  | nil => rfl
  | cons r rs ih =>
    rw [List.pairwise_cons] at h
    rw [dedupLast, if_neg, ih h.2]
    simp only [List.any_eq_true, not_exists, not_and]
    intro x hx
    simp only [beq_iff_eq]
    exact fun e => (h.1 x hx) e.symm

theorem mem_survivors_split (records : List Row) (x : Row)
    (hx : x ∈ dedupLast (records.filter (fun r => decide (keyOf r ≠ Value.null)))) :
    ∃ l₁ l₂, records = l₁ ++ x :: l₂ ∧ keyOf x ≠ Value.null ∧
      ∀ y ∈ l₂, keyOf y ≠ keyOf x := by
  induction records with
  | nil => simp [dedupLast] at hx
  | cons r rs ih =>
    by_cases hr : keyOf r ≠ Value.null
    · rw [List.filter_cons_of_pos (by simpa using hr)] at hx
      rw [dedupLast] at hx
      by_cases hdup : ((rs.filter (fun r => decide (keyOf r ≠ Value.null))).any
          fun y => keyOf y == keyOf r) = true
      · rw [if_pos hdup] at hx
        obtain ⟨l₁, l₂, hsplit, hnull, hlast⟩ := ih hx
        exact ⟨r :: l₁, l₂, by rw [hsplit]; rfl, hnull, hlast⟩
      · rw [if_neg hdup] at hx
        rcases List.mem_cons.mp hx with hxr | hx2
        · subst hxr
          refine ⟨[], rs, rfl, hr, fun y hy hkey => ?_⟩
          by_cases hynull : keyOf y ≠ Value.null
          · have hyf : y ∈ rs.filter (fun r => decide (keyOf r ≠ Value.null)) :=
              List.mem_filter.mpr ⟨hy, by simpa using hynull⟩
            have hfalse : ((rs.filter (fun r => decide (keyOf r ≠ Value.null))).any
                fun z => keyOf z == keyOf x) = false := Bool.eq_false_iff.mpr hdup
            have hne := List.any_eq_false.mp hfalse y hyf
            simp only [beq_iff_eq] at hne
            exact hne hkey
          · push_neg at hynull
            exact hr (hkey ▸ hynull)
        · obtain ⟨l₁, l₂, hsplit, hnull, hlast⟩ := ih hx2
          exact ⟨r :: l₁, l₂, by rw [hsplit]; rfl, hnull, hlast⟩
    · rw [List.filter_cons_of_neg (by simpa using hr)] at hx
      obtain ⟨l₁, l₂, hsplit, hnull, hlast⟩ := ih hx
      exact ⟨r :: l₁, l₂, by rw [hsplit]; rfl, hnull, hlast⟩

/-! ## Lemmas about cleaned rows and the transform pipeline -/

theorem getCell_cleanRow_booking (parse : Value → Option Nat) (r : Row) :
    getCell (cleanRow parse r) "booking_id" = getCell r "booking_id" := by
  unfold cleanRow
  rw [getCell_setCell_ne _ _ _ _ (by decide), getCell_setCell_ne _ _ _ _ (by decide),
    getCell_setCell_ne _ _ _ _ (by decide), getCell_setCell_ne _ _ _ _ (by decide)]

theorem keyOf_cleanRow (parse : Value → Option Nat) (r : Row) :
    keyOf (cleanRow parse r) = keyOf r :=
  getCell_cleanRow_booking parse r

theorem getCell_cleanRow_in (parse : Value → Option Nat) (r : Row) :
    getCell (cleanRow parse r) "check_in_date" =
      optDate (parse (getCell r "check_in_date")) := by
  unfold cleanRow
  rw [getCell_setCell_ne _ _ _ _ (by decide), getCell_setCell_ne _ _ _ _ (by decide),
    getCell_setCell_ne _ _ _ _ (by decide), getCell_setCell_same]

theorem getCell_cleanRow_out (parse : Value → Option Nat) (r : Row) :
    getCell (cleanRow parse r) "check_out_date" =
      optDate (parse (getCell r "check_out_date")) := by
  unfold cleanRow
  rw [getCell_setCell_ne _ _ _ _ (by decide), getCell_setCell_ne _ _ _ _ (by decide),
    getCell_setCell_same]

theorem getCell_cleanRow_company (parse : Value → Option Nat) (r : Row) :
    getCell (cleanRow parse r) "owner_company" =
      Value.str (cleanText (valueToStr (getCell r "owner_company"))) := by
  unfold cleanRow
  rw [getCell_setCell_ne _ _ _ _ (by decide), getCell_setCell_same]

theorem getCell_cleanRow_country (parse : Value → Option Nat) (r : Row) :
    getCell (cleanRow parse r) "owner_company_country" =
      Value.str (cleanText (valueToStr (getCell r "owner_company_country"))) := by
  unfold cleanRow
  rw [getCell_setCell_same]

theorem dateOrderOk_cleanRow (parse : Value → Option Nat) (r : Row) :
    dateOrderOk (cleanRow parse r) =
      cmpGe (optDate (parse (getCell r "check_out_date")))
            (optDate (parse (getCell r "check_in_date"))) := by
  rw [dateOrderOk, getCell_cleanRow_out, getCell_cleanRow_in]

theorem hasKey_cleanRow (parse : Value → Option Nat) (r : Row) (c : String)
    (hc : c ∈ requiredCols) (hb : c = "booking_id" → hasKey r c = true) :
    hasKey (cleanRow parse r) c = true := by
  unfold cleanRow
  simp only [requiredCols, List.mem_cons, List.not_mem_nil, or_false] at hc
  rcases hc with h | h | h | h | h <;> subst h
  · rw [hasKey_setCell_ne _ _ _ _ (by decide), hasKey_setCell_ne _ _ _ _ (by decide),
      hasKey_setCell_ne _ _ _ _ (by decide), hasKey_setCell_ne _ _ _ _ (by decide)]
    exact hb rfl
  · rw [hasKey_setCell_ne _ _ _ _ (by decide), hasKey_setCell_ne _ _ _ _ (by decide),
      hasKey_setCell_ne _ _ _ _ (by decide)]
    exact hasKey_setCell_same _ _ _
  · rw [hasKey_setCell_ne _ _ _ _ (by decide), hasKey_setCell_ne _ _ _ _ (by decide)]
    exact hasKey_setCell_same _ _ _
  · rw [hasKey_setCell_ne _ _ _ _ (by decide)]
    exact hasKey_setCell_same _ _ _
  · exact hasKey_setCell_same _ _ _

theorem transformDF_ok (parse : Value → Option Nat) (df : DF)
    (h : requiredCols.find? (fun c => !(df.cols.contains c)) = none) :
    transformDF parse df = Except.ok ⟨df.cols,
      ((dedupLast (df.rows.filter (fun r => decide (keyOf r ≠ Value.null)))).map
        (cleanRow parse)).filter dateOrderOk⟩ := by
  rw [transformDF, h]

theorem transformDF_ok_inv (parse : Value → Option Nat) (df : DF) (out : DF)
    (h : transformDF parse df = Except.ok out) :
    requiredCols.find? (fun c => !(df.cols.contains c)) = none ∧
    out = ⟨df.cols,
      ((dedupLast (df.rows.filter (fun r => decide (keyOf r ≠ Value.null)))).map
        (cleanRow parse)).filter dateOrderOk⟩ := by
  rw [transformDF] at h
  cases hf : requiredCols.find? (fun c => !(df.cols.contains c)) with
  | some c => rw [hf] at h; cases h
  | none =>
    rw [hf] at h
    exact ⟨rfl, (Except.ok.injEq _ _).mp h.symm⟩

theorem contains_colsOf (records : List Row) (c : String) :
    (colsOf records).contains c = hasCol records c := by
  rw [Bool.eq_iff_iff]
  rw [List.contains_iff_exists_mem_beq]
  unfold colsOf hasCol hasKey
  constructor
  · rintro ⟨x, hx, hbeq⟩
    have hcx : c = x := by simpa using hbeq
    subst hcx
    rw [List.mem_dedup, List.mem_flatten] at hx
    obtain ⟨l, hl, hcl⟩ := hx
    obtain ⟨r, hr, rfl⟩ := List.mem_map.mp hl
    obtain ⟨p, hp, rfl⟩ := List.mem_map.mp hcl
    exact List.any_eq_true.mpr ⟨r, hr, List.any_eq_true.mpr ⟨p, hp, by simp⟩⟩
  · intro hany
    obtain ⟨r, hr, hrk⟩ := List.any_eq_true.mp hany
    obtain ⟨p, hp, hpc⟩ := List.any_eq_true.mp hrk
    have hpc2 : p.1 = c := by simpa using hpc
    refine ⟨c, ?_, by simp⟩
    rw [List.mem_dedup, List.mem_flatten]
    exact ⟨r.map Prod.fst, List.mem_map_of_mem _ hr, hpc2 ▸ List.mem_map_of_mem _ hp⟩

/-! ## Claims about the transform pipeline -/


theorem hasKey_of_getCell_ne_null (r : Row) (c : String)
    (h : getCell r c ≠ Value.null) : hasKey r c = true := by
  unfold getCell at h
  cases hf : List.find? (fun p => p.1 == c) r with
  | none => rw [hf] at h; simp at h
  | some p =>
    have hmem := List.mem_of_find?_eq_some hf
    have hcond := List.find?_some hf
    exact List.any_eq_true.mpr ⟨p, hmem, hcond⟩

/-- C2: the normalized output never contains a null `booking_id`, carries at
most one row per `booking_id`, and every output row is the cleaned image of
an input record that is the last occurrence of its `booking_id` in the
input sequence (earlier duplicates never survive). -/
theorem claim_C2_dedup (parse : Value → Option Nat) (records : List Row) (out : DF)
    (h : transform_data parse records = Except.ok out) :
    (∀ r ∈ out.rows, keyOf r ≠ Value.null)
  ∧ out.rows.Pairwise (fun a b => keyOf a ≠ keyOf b)
  ∧ (∀ r ∈ out.rows, ∃ l₁ r₀ l₂, records = l₁ ++ r₀ :: l₂ ∧ r = cleanRow parse r₀ ∧
      keyOf r₀ = keyOf r ∧ ∀ y ∈ l₂, keyOf y ≠ keyOf r₀) := by
  obtain ⟨-, hout⟩ := transformDF_ok_inv parse (toDF records) out h
  have hrows : out.rows = ((dedupLast ((toDF records).rows.filter
      (fun r => decide (keyOf r ≠ Value.null)))).map (cleanRow parse)).filter dateOrderOk := by
    rw [hout]
  have hmem : ∀ r ∈ out.rows, ∃ r₀, r₀ ∈ dedupLast (records.filter
      (fun r => decide (keyOf r ≠ Value.null))) ∧ r = cleanRow parse r₀ := by
    intro r hr
    rw [hrows] at hr
    have hr2 := List.mem_of_mem_filter hr
    obtain ⟨r₀, hr₀, hre⟩ := List.mem_map.mp hr2
    exact ⟨r₀, hr₀, hre.symm⟩
  refine ⟨?_, ?_, ?_⟩
  · intro r hr
    obtain ⟨r₀, hr₀, rfl⟩ := hmem r hr
    rw [keyOf_cleanRow]
    obtain ⟨-, -, -, hnull, -⟩ := mem_survivors_split records r₀ hr₀
    exact hnull
  · rw [hrows]
    refine List.Pairwise.sublist (List.filter_sublist _) ?_
    rw [List.pairwise_map]
    refine (dedupLast_pairwise _).imp ?_
    intro a b hab
    rwa [keyOf_cleanRow, keyOf_cleanRow]
  · intro r hr
    obtain ⟨r₀, hr₀, rfl⟩ := hmem r hr
    obtain ⟨l₁, l₂, hsplit, hnull, hlast⟩ := mem_survivors_split records r₀ hr₀
    exact ⟨l₁, r₀, l₂, hsplit, rfl, (keyOf_cleanRow parse r₀).symm, hlast⟩

/-- C2 witness: the spec's example — two records with id 1, January and
February stays — normalizes to exactly one row whose `check_in_date` is
2024-02-01 (the later record), and the general guarantees hold there. -/
theorem claim_C2_dedup_witness :
    (transform_data isoParse [exBooking1, exBooking2] =
      Except.ok ⟨["booking_id", "check_in_date", "check_out_date", "owner_company",
                  "owner_company_country"],
        [[("booking_id", Value.int 1), ("check_in_date", Value.date 20240201),
          ("check_out_date", Value.date 20240205), ("owner_company", Value.str "Acme Corp"),
          ("owner_company_country", Value.str "Uk")]]⟩)
  ∧ (∀ r ∈ ([[("booking_id", Value.int 1), ("check_in_date", Value.date 20240201),
        ("check_out_date", Value.date 20240205), ("owner_company", Value.str "Acme Corp"),
        ("owner_company_country", Value.str "Uk")]] : List Row), keyOf r ≠ Value.null) := by
  have hok : transform_data isoParse [exBooking1, exBooking2] =
      Except.ok ⟨["booking_id", "check_in_date", "check_out_date", "owner_company",
                  "owner_company_country"],
        [[("booking_id", Value.int 1), ("check_in_date", Value.date 20240201),
          ("check_out_date", Value.date 20240205), ("owner_company", Value.str "Acme Corp"),
          ("owner_company_country", Value.str "Uk")]]⟩ := by decide
  exact ⟨hok, (claim_C2_dedup isoParse [exBooking1, exBooking2] _ hok).1⟩



/-- C3: among the records surviving null-removal and deduplication, a
record appears (cleaned) in the normalized output exactly when both of its
dates parse and the check-out date is not earlier than the check-in date;
`transform_data` returns a result (rather than raising) independently of
such per-record failures. -/
theorem claim_C3_date_filter (parse : Value → Option Nat) (records : List Row) (out : DF)
    (h : transform_data parse records = Except.ok out) :
    ∀ r₀ ∈ dedupLast (records.filter (fun r => decide (keyOf r ≠ Value.null))),
      (cleanRow parse r₀ ∈ out.rows ↔
        ∃ d1 d2, parse (getCell r₀ "check_in_date") = some d1 ∧
          parse (getCell r₀ "check_out_date") = some d2 ∧ d1 ≤ d2) := by
  obtain ⟨-, hout⟩ := transformDF_ok_inv parse (toDF records) out h
  intro r₀ hr₀
  rw [hout]
  constructor
  · intro hmem
    have hcond := List.of_mem_filter hmem
    rw [dateOrderOk_cleanRow] at hcond
    cases hin : parse (getCell r₀ "check_in_date") with
    | none => rw [hin] at hcond; cases hout2 : parse (getCell r₀ "check_out_date") <;>
        rw [hout2] at hcond <;> simp [optDate, cmpGe] at hcond
    | some d1 =>
      cases hout2 : parse (getCell r₀ "check_out_date") with
      | none => rw [hin, hout2] at hcond; simp [optDate, cmpGe] at hcond
      | some d2 =>
        rw [hin, hout2] at hcond
        simp only [optDate, cmpGe] at hcond
        exact ⟨d1, d2, rfl, rfl, by simpa using hcond⟩
  · rintro ⟨d1, d2, hin, hout2, hle⟩
    refine List.mem_filter.mpr ⟨List.mem_map_of_mem _ hr₀, ?_⟩
    rw [dateOrderOk_cleanRow, hin, hout2]
    simpa [optDate, cmpGe] using hle

/-- C3 witness: with surviving records id 2 (unparseable check-in) and id 3
(check-out before check-in) and id 4 (valid), only id 4's record passes:
the pipeline returns a one-row table and raises nothing. -/
theorem claim_C3_date_filter_witness :
    (transform_data isoParse [exBadDate, exReversed, exNoCountry]).map
      (fun df => df.rows.map (fun r => getCell r "booking_id")) =
      Except.ok [Value.int 4] := by
  have hok : transform_data isoParse [exBadDate, exReversed, exNoCountry] =
      Except.ok ⟨["owner_company_country", "booking_id", "check_in_date", "check_out_date",
                  "owner_company"],
        [[("booking_id", Value.int 4), ("check_in_date", Value.date 20240401),
          ("check_out_date", Value.date 20240402), ("owner_company", Value.str "D"),
          ("owner_company_country", Value.str "Nan")]]⟩ := by decide
  have hiff := claim_C3_date_filter isoParse [exBadDate, exReversed, exNoCountry] _ hok
  have hbad : ¬ (cleanRow isoParse exBadDate ∈
      ([[("booking_id", Value.int 4), ("check_in_date", Value.date 20240401),
        ("check_out_date", Value.date 20240402), ("owner_company", Value.str "D"),
        ("owner_company_country", Value.str "Nan")]] : List Row)) := by
    rw [hiff exBadDate (by decide)]
    rintro ⟨d1, d2, hd1, -, -⟩
    have hnone : isoParse (getCell exBadDate "check_in_date") = none := by decide
    rw [hnone] at hd1
    cases hd1
  rw [hok]
  decide



/-- C4: every normalized row's `owner_company` and `owner_company_country`
are the originating record's values coerced to text, stripped, and
title-cased; `"  acme corp  "` becomes `"Acme Corp"` and a missing value
becomes the literal text `"Nan"`. -/
theorem claim_C4_text (parse : Value → Option Nat) (records : List Row) (out : DF)
    (h : transform_data parse records = Except.ok out) :
    (∀ r ∈ out.rows, ∃ r₀ ∈ records,
       getCell r "owner_company" =
         Value.str (cleanText (valueToStr (getCell r₀ "owner_company"))) ∧
       getCell r "owner_company_country" =
         Value.str (cleanText (valueToStr (getCell r₀ "owner_company_country"))))
  ∧ cleanText "  acme corp  " = "Acme Corp"
  ∧ cleanText (valueToStr Value.null) = "Nan" := by
  obtain ⟨-, hout⟩ := transformDF_ok_inv parse (toDF records) out h
  refine ⟨?_, by decide, by decide⟩
  intro r hr
  rw [hout] at hr
  have hr2 := List.mem_of_mem_filter hr
  obtain ⟨r₀, hr₀, rfl⟩ := List.mem_map.mp hr2
  have hrec : r₀ ∈ records :=
    ((dedupLast_sublist _).trans (List.filter_sublist _)).subset hr₀
  exact ⟨r₀, hrec, getCell_cleanRow_company parse r₀, getCell_cleanRow_country parse r₀⟩

/-- C4 witness: the record with `owner_company = "  acme corp  "` and no
country key normalizes to `"Acme Corp"` and country `"Nan"`. -/
theorem claim_C4_text_witness :
    (transform_data isoParse [exNoCountry, exBooking2]).map
      (fun df => df.rows.map (fun r =>
        (getCell r "owner_company", getCell r "owner_company_country"))) =
      Except.ok [(Value.str "D", Value.str "Nan"), (Value.str "Acme Corp", Value.str "Uk")]
  ∧ cleanText "  acme corp  " = "Acme Corp"
  ∧ cleanText (valueToStr Value.null) = "Nan" := by
  have hok : transform_data isoParse [exNoCountry, exBooking2] =
      Except.ok ⟨["booking_id", "check_in_date", "check_out_date", "owner_company",
                  "owner_company_country"],
        [[("booking_id", Value.int 4), ("check_in_date", Value.date 20240401),
          ("check_out_date", Value.date 20240402), ("owner_company", Value.str "D"),
          ("owner_company_country", Value.str "Nan")],
         [("booking_id", Value.int 1), ("check_in_date", Value.date 20240201),
          ("check_out_date", Value.date 20240205), ("owner_company", Value.str "Acme Corp"),
          ("owner_company_country", Value.str "Uk")]]⟩ := by decide
  have happ := claim_C4_text isoParse [exNoCountry, exBooking2] _ hok
  exact ⟨by rw [hok]; decide, happ.2.1, happ.2.2⟩

/-- C7 counterexample: a raw record carrying a sixth field `extra_field`
survives normalization with that field still present in the output table,
so the output does not have exactly the five named fields. -/
theorem claim_C7_counterexample :
    (transform_data isoParse [exExtra]).map (fun df => hasCol df.rows "extra_field") =
      Except.ok true
  ∧ (transform_data isoParse [exExtra]).map (fun df => df.cols.contains "extra_field") =
      Except.ok true
  ∧ (transform_data isoParse [exExtra]).map (fun df => df.rows.length) = Except.ok 1 := by
  refine ⟨by decide, by decide, by decide⟩

/-- C7 amended: every normalized row carries the five named fields, but
fields beyond the five that appear in the raw records are retained (the
column set of the output is exactly that of the input table; projection to
the five fields happens only downstream, at load time). -/
theorem claim_C7_amended (parse : Value → Option Nat) (records : List Row) (out : DF)
    (h : transform_data parse records = Except.ok out) :
    (∀ r ∈ out.rows, ∀ c ∈ requiredCols, hasKey r c = true)
  ∧ out.cols = colsOf records := by
  obtain ⟨-, hout⟩ := transformDF_ok_inv parse (toDF records) out h
  constructor
  · intro r hr c hc
    rw [hout] at hr
    have hr2 := List.mem_of_mem_filter hr
    obtain ⟨r₀, hr₀, rfl⟩ := List.mem_map.mp hr2
    refine hasKey_cleanRow parse r₀ c hc ?_
    intro hcb
    subst hcb
    obtain ⟨-, -, -, hnull, -⟩ := mem_survivors_split records r₀ hr₀
    exact hasKey_of_getCell_ne_null r₀ "booking_id" hnull
  · rw [hout]
    rfl

/-- C7 amended witness: on the record with the extra field, the output row
carries all five named fields and the column set is the six input
columns. -/
theorem claim_C7_amended_witness :
    (∀ r ∈ ([[("booking_id", Value.int 5), ("check_in_date", Value.date 20240501),
        ("check_out_date", Value.date 20240502), ("owner_company", Value.str "E"),
        ("owner_company_country", Value.str "Es"), ("extra_field", Value.int 99)]] : List Row),
      ∀ c ∈ requiredCols, hasKey r c = true)
  ∧ (["booking_id", "check_in_date", "check_out_date", "owner_company",
      "owner_company_country", "extra_field"] : List String) = colsOf [exExtra] := by
  have hok : transform_data isoParse [exExtra] =
      Except.ok ⟨["booking_id", "check_in_date", "check_out_date", "owner_company",
                  "owner_company_country", "extra_field"],
        [[("booking_id", Value.int 5), ("check_in_date", Value.date 20240501),
          ("check_out_date", Value.date 20240502), ("owner_company", Value.str "E"),
          ("owner_company_country", Value.str "Es"), ("extra_field", Value.int 99)]]⟩ := by
    decide
  exact (claim_C7_amended isoParse [exExtra] _ hok)



theorem transform_rows_length_le (parse : Value → Option Nat) (records : List Row) (out : DF)
    (h : transform_data parse records = Except.ok out) :
    out.rows.length ≤ records.length := by
  obtain ⟨-, he⟩ := transformDF_ok_inv parse (toDF records) out h
  rw [he]
  calc (((dedupLast ((toDF records).rows.filter
          (fun r => decide (keyOf r ≠ Value.null)))).map (cleanRow parse)).filter
            dateOrderOk).length
      ≤ ((dedupLast ((toDF records).rows.filter
          (fun r => decide (keyOf r ≠ Value.null)))).map (cleanRow parse)).length :=
        List.length_filter_le _ _
    _ = (dedupLast ((toDF records).rows.filter
          (fun r => decide (keyOf r ≠ Value.null)))).length := List.length_map _ _
    _ ≤ ((toDF records).rows.filter (fun r => decide (keyOf r ≠ Value.null))).length :=
        (dedupLast_sublist _).length_le
    _ ≤ records.length := List.length_filter_le _ _

/-- C8: `transform_data` aborts with the schema error exactly when one of
the five expected fields is absent from every input record (the error names
the first such field in the order the source touches them); otherwise it
returns a table, and per-record data-quality problems can only reduce the
number of rows, never abort. -/
theorem claim_C8_schema_error (parse : Value → Option Nat) (records : List Row) :
    ((∃ e, transform_data parse records = Except.error e) ↔
      ∃ c ∈ requiredCols, hasCol records c = false)
  ∧ (∀ out, transform_data parse records = Except.ok out →
      out.rows.length ≤ records.length) := by
  constructor
  · constructor
    · rintro ⟨e, he⟩
      rw [transform_data, transformDF] at he
      cases hf : requiredCols.find? (fun c => !((toDF records).cols.contains c)) with
      | none => rw [hf] at he; cases he
      | some c =>
        have hc := List.find?_some hf
        have hmem := List.mem_of_find?_eq_some hf
        refine ⟨c, hmem, ?_⟩
        have : (colsOf records).contains c = false := by
          cases hcc : (colsOf records).contains c
          · rfl
          · rw [show (toDF records).cols = colsOf records from rfl, hcc] at hc
            cases hc
        rw [← contains_colsOf]
        exact this
    · rintro ⟨c, hc, hcol⟩
      cases hf : requiredCols.find? (fun x => !((toDF records).cols.contains x)) with
      | none =>
        have hall := List.find?_eq_none.mp hf c hc
        rw [show (toDF records).cols = colsOf records from rfl, contains_colsOf, hcol] at hall
        simp at hall
      | some d =>
        refine ⟨d, ?_⟩
        rw [transform_data, transformDF, hf]
  · intro out hout
    exact transform_rows_length_le parse records out hout

/-- C8 witness: records all lacking `check_in_date` abort with the schema
error naming it, while a record set with all five fields present but every
row invalid returns an empty table rather than aborting. -/
theorem claim_C8_schema_error_witness :
    (∃ c ∈ requiredCols, hasCol [[("booking_id", Value.int 1)]] c = false)
  ∧ transform_data isoParse [[("booking_id", Value.int 1)]] = Except.error "check_in_date"
  ∧ transform_data isoParse [exBadDate] =
      Except.ok ⟨["booking_id", "check_in_date", "check_out_date", "owner_company",
                  "owner_company_country"], []⟩
  ∧ (0 : Nat) ≤ 1 := by
  refine ⟨?_, by decide, by decide, ?_⟩
  · exact (claim_C8_schema_error isoParse [[("booking_id", Value.int 1)]]).1.mp
      ⟨"check_in_date", by decide⟩
  · exact Nat.zero_le 1

/-- C10: the normalized rows are the cleaned images of a subsequence of the
input records — each a last occurrence of its `booking_id`, with null ids
removed and pairwise-distinct keys — filtered by the date-order check; in
particular no rows are invented and the output length is at most the input
length. -/
theorem claim_C10_order (parse : Value → Option Nat) (records : List Row) (out : DF)
    (h : transform_data parse records = Except.ok out) :
    out.rows.length ≤ records.length
  ∧ ∃ l : List Row, l.Sublist records ∧ (∀ x ∈ l, keyOf x ≠ Value.null)
      ∧ l.Pairwise (fun a b => keyOf a ≠ keyOf b)
      ∧ (∀ x ∈ l, ∃ l₁ l₂, records = l₁ ++ x :: l₂ ∧ ∀ y ∈ l₂, keyOf y ≠ keyOf x)
      ∧ out.rows = (l.map (cleanRow parse)).filter dateOrderOk := by
  refine ⟨transform_rows_length_le parse records out h, ?_⟩
  obtain ⟨-, hout⟩ := transformDF_ok_inv parse (toDF records) out h
  refine ⟨dedupLast (records.filter (fun r => decide (keyOf r ≠ Value.null))),
    (dedupLast_sublist _).trans (List.filter_sublist _), ?_, dedupLast_pairwise _, ?_, ?_⟩
  · intro x hx
    obtain ⟨-, -, -, hnull, -⟩ := mem_survivors_split records x hx
    exact hnull
  · intro x hx
    obtain ⟨l₁, l₂, hsplit, -, hlast⟩ := mem_survivors_split records x hx
    exact ⟨l₁, l₂, hsplit, hlast⟩
  · rw [hout]
    rfl



/-- C10 witness: on the two-record example with ids `[1, 1]`, the output is
the cleaned image of the subsequence `[exBooking2]` (the last occurrence of
id 1) and has one row against two inputs. -/
theorem claim_C10_order_witness :
    ([[("booking_id", Value.int 1), ("check_in_date", Value.date 20240201),
       ("check_out_date", Value.date 20240205), ("owner_company", Value.str "Acme Corp"),
       ("owner_company_country", Value.str "Uk")]] : List Row).length ≤
      ([exBooking1, exBooking2] : List Row).length
  ∧ ∃ l : List Row, l.Sublist [exBooking1, exBooking2] ∧ (∀ x ∈ l, keyOf x ≠ Value.null)
      ∧ l.Pairwise (fun a b => keyOf a ≠ keyOf b)
      ∧ (∀ x ∈ l, ∃ l₁ l₂, ([exBooking1, exBooking2] : List Row) = l₁ ++ x :: l₂ ∧
          ∀ y ∈ l₂, keyOf y ≠ keyOf x)
      ∧ ([[("booking_id", Value.int 1), ("check_in_date", Value.date 20240201),
           ("check_out_date", Value.date 20240205), ("owner_company", Value.str "Acme Corp"),
           ("owner_company_country", Value.str "Uk")]] : List Row) =
          (l.map (cleanRow isoParse)).filter dateOrderOk := by
  have hok : transform_data isoParse [exBooking1, exBooking2] =
      Except.ok ⟨["booking_id", "check_in_date", "check_out_date", "owner_company",
                  "owner_company_country"],
        [[("booking_id", Value.int 1), ("check_in_date", Value.date 20240201),
          ("check_out_date", Value.date 20240205), ("owner_company", Value.str "Acme Corp"),
          ("owner_company_country", Value.str "Uk")]]⟩ := by decide
  exact claim_C10_order isoParse [exBooking1, exBooking2] _ hok


/-! ## Idempotence of normalization (claim C6) -/


theorem toNat_ofNat_valid (n : Nat) (h : Nat.isValidChar n) : (Char.ofNat n).toNat = n := by
  simp [Char.ofNat, h, Char.ofNatAux, Char.toNat, UInt32.toNat]

theorem toUpper_idem (c : Char) : (c.toUpper).toUpper = c.toUpper := by
  simp only [Char.toUpper]
  split
  · rename_i h
    have hv : Nat.isValidChar (c.toNat - 32) := by
      constructor
      omega
    rw [toNat_ofNat_valid _ hv,
      if_neg (by omega : ¬ (c.toNat - 32 ≥ 97 ∧ c.toNat - 32 ≤ 122))]
  · rfl

theorem toLower_idem (c : Char) : (c.toLower).toLower = c.toLower := by
  simp only [Char.toLower]
  split
  · rename_i h
    have hv : Nat.isValidChar (c.toNat + 32) := by
      constructor
      omega
    rw [toNat_ofNat_valid _ hv,
      if_neg (by omega : ¬ (c.toNat + 32 ≥ 65 ∧ c.toNat + 32 ≤ 90))]
  · rfl

theorem isAsciiAlpha_toUpper (c : Char) : isAsciiAlpha c.toUpper = isAsciiAlpha c := by
  simp only [Char.toUpper]
  split
  · rename_i h
    have hv : Nat.isValidChar (c.toNat - 32) := by
      constructor
      omega
    rw [Bool.eq_iff_iff]
    simp only [isAsciiAlpha, toNat_ofNat_valid _ hv, Bool.or_eq_true, Bool.and_eq_true,
      decide_eq_true_eq]
    omega
  · rfl

theorem isAsciiAlpha_toLower (c : Char) : isAsciiAlpha c.toLower = isAsciiAlpha c := by
  simp only [Char.toLower]
  split
  · rename_i h
    have hv : Nat.isValidChar (c.toNat + 32) := by
      constructor
      omega
    rw [Bool.eq_iff_iff]
    simp only [isAsciiAlpha, toNat_ofNat_valid _ hv, Bool.or_eq_true, Bool.and_eq_true,
      decide_eq_true_eq]
    omega
  · rfl

theorem pyIsSpace_toUpper (c : Char) : pyIsSpace c.toUpper = pyIsSpace c := by
  simp only [Char.toUpper]
  split
  · rename_i h
    have hv : Nat.isValidChar (c.toNat - 32) := by
      constructor
      omega
    rw [Bool.eq_iff_iff]
    simp only [pyIsSpace, toNat_ofNat_valid _ hv, Bool.or_eq_true, beq_iff_eq]
    omega
  · rfl

theorem pyIsSpace_toLower (c : Char) : pyIsSpace c.toLower = pyIsSpace c := by
  simp only [Char.toLower]
  split
  · rename_i h
    have hv : Nat.isValidChar (c.toNat + 32) := by
      constructor
      omega
    rw [Bool.eq_iff_iff]
    simp only [pyIsSpace, toNat_ofNat_valid _ hv, Bool.or_eq_true, beq_iff_eq]
    omega
  · rfl

theorem isAsciiAlpha_titleChar (b : Bool) (c : Char) :
    isAsciiAlpha (titleChar b c) = isAsciiAlpha c := by
  unfold titleChar
  by_cases h : isAsciiAlpha c = true
  · rw [if_pos h]
    cases b
    · simp only [Bool.false_eq_true, if_false, isAsciiAlpha_toUpper]
    · simp only [if_true, isAsciiAlpha_toLower]
  · rw [if_neg h]

theorem pyIsSpace_titleChar (b : Bool) (c : Char) :
    pyIsSpace (titleChar b c) = pyIsSpace c := by
  unfold titleChar
  by_cases h : isAsciiAlpha c = true
  · rw [if_pos h]
    cases b
    · simp only [Bool.false_eq_true, if_false, pyIsSpace_toUpper]
    · simp only [if_true, pyIsSpace_toLower]
  · rw [if_neg h]

theorem titleChar_idem (b : Bool) (c : Char) :
    titleChar b (titleChar b c) = titleChar b c := by
  unfold titleChar
  by_cases h : isAsciiAlpha c = true
  · rw [if_pos h]
    cases b
    · simp only [Bool.false_eq_true, if_false, isAsciiAlpha_toUpper, h, if_true, toUpper_idem]
    · simp only [if_true, isAsciiAlpha_toLower, h, toLower_idem]
  · rw [if_neg h, if_neg h]



theorem titleAux_idem (b : Bool) (l : List Char) :
    titleAux b (titleAux b l) = titleAux b l := by
  induction l generalizing b with
  | nil => rfl
  | cons c cs ih =>
    simp only [titleAux, isAsciiAlpha_titleChar, titleChar_idem]
    rw [ih]

theorem titleAux_length (b : Bool) (l : List Char) :
    (titleAux b l).length = l.length := by
  induction l generalizing b with
  | nil => rfl
  | cons c cs ih => simp only [titleAux, List.length_cons, ih]

theorem titleAux_space_get (b : Bool) (l : List Char) (i : Nat)
    (h1 : i < (titleAux b l).length) (h2 : i < l.length) :
    pyIsSpace ((titleAux b l).get ⟨i, h1⟩) = pyIsSpace (l.get ⟨i, h2⟩) := by
  induction l generalizing b i with
  | nil => cases h2
  | cons c cs ih =>
    cases i with
    | zero => simpa using pyIsSpace_titleChar b c
    | succ j =>
      simp only [titleAux, List.get_cons_succ]
      exact ih (isAsciiAlpha c) j _ _

theorem pyStrip_head_not (l : List Char) (h : 0 < (pyStrip l).length) :
    ¬ pyIsSpace ((pyStrip l).get ⟨0, h⟩) = true := by
  unfold pyStrip at *
  have hpre : ∃ t, List.rdropWhile pyIsSpace (l.dropWhile pyIsSpace) ++ t =
      l.dropWhile pyIsSpace := List.rdropWhile_prefix _ _
  obtain ⟨t, ht⟩ := hpre
  have hlen : 0 < (l.dropWhile pyIsSpace).length := by
    rw [← ht, List.length_append]
    omega
  have hgot : (l.dropWhile pyIsSpace).get ⟨0, hlen⟩ =
      (List.rdropWhile pyIsSpace (l.dropWhile pyIsSpace)).get ⟨0, h⟩ :=
    (List.get_of_eq ht.symm ⟨0, hlen⟩).trans (List.get_append_left _ _ _)
  rw [← hgot]
  exact List.dropWhile_get_zero_not pyIsSpace l hlen

theorem pyStrip_idem (l : List Char) : pyStrip (pyStrip l) = pyStrip l := by
  have h1 : (pyStrip l).dropWhile pyIsSpace = pyStrip l :=
    List.dropWhile_eq_self_iff.mpr (pyStrip_head_not l)
  show List.rdropWhile pyIsSpace ((pyStrip l).dropWhile pyIsSpace) = pyStrip l
  rw [h1]
  show List.rdropWhile pyIsSpace (List.rdropWhile pyIsSpace (l.dropWhile pyIsSpace)) =
    List.rdropWhile pyIsSpace (l.dropWhile pyIsSpace)
  exact List.rdropWhile_idempotent _ _



theorem titleAux_space_getLast (b : Bool) (l : List Char)
    (h1 : titleAux b l ≠ []) (h2 : l ≠ []) :
    pyIsSpace ((titleAux b l).getLast h1) = pyIsSpace (l.getLast h2) := by
  induction l generalizing b with
  | nil => exact absurd rfl h2
  | cons c cs ih =>
    cases cs with
    | nil => exact pyIsSpace_titleChar b c
    | cons d ds =>
      have he : titleAux b (c :: d :: ds) =
          titleChar b c :: titleAux (isAsciiAlpha c) (d :: ds) := rfl
      have hne : titleAux (isAsciiAlpha c) (d :: ds) ≠ [] := by
        intro hx
        have := titleAux_length (isAsciiAlpha c) (d :: ds)
        rw [hx] at this
        simp at this
      calc pyIsSpace ((titleAux b (c :: d :: ds)).getLast h1)
          = pyIsSpace ((titleChar b c :: titleAux (isAsciiAlpha c) (d :: ds)).getLast
              (by rw [← he]; exact h1)) := by
            congr 1
        _ = pyIsSpace ((titleAux (isAsciiAlpha c) (d :: ds)).getLast hne) := by
            congr 1
        _ = pyIsSpace ((d :: ds).getLast (by simp)) := ih (isAsciiAlpha c) hne (by simp)
        _ = pyIsSpace ((c :: d :: ds).getLast h2) := by
            congr 1

theorem pyStrip_title (l : List Char) :
    pyStrip (pyTitle (pyStrip l)) = pyTitle (pyStrip l) := by
  have hlen : (pyTitle (pyStrip l)).length = (pyStrip l).length := titleAux_length _ _
  have hdrop : (pyTitle (pyStrip l)).dropWhile pyIsSpace = pyTitle (pyStrip l) := by
    refine List.dropWhile_eq_self_iff.mpr ?_
    intro h
    have h2 : 0 < (pyStrip l).length := by omega
    show ¬ pyIsSpace ((titleAux false (pyStrip l)).get ⟨0, h⟩) = true
    rw [titleAux_space_get false (pyStrip l) 0 h h2]
    exact pyStrip_head_not l h2
  have hrdrop : List.rdropWhile pyIsSpace (pyTitle (pyStrip l)) = pyTitle (pyStrip l) := by
    refine List.rdropWhile_eq_self_iff.mpr ?_
    intro hT
    have hBne : pyStrip l ≠ [] := by
      intro hB
      apply hT
      rw [← List.length_eq_zero] at hB ⊢
      omega
    show ¬ pyIsSpace ((titleAux false (pyStrip l)).getLast hT) = true
    rw [titleAux_space_getLast false (pyStrip l) hT hBne]
    exact List.rdropWhile_last_not pyIsSpace (l.dropWhile pyIsSpace) hBne
  show List.rdropWhile pyIsSpace ((pyTitle (pyStrip l)).dropWhile pyIsSpace) =
    pyTitle (pyStrip l)
  rw [hdrop, hrdrop]

theorem cleanText_idem (s : String) : cleanText (cleanText s) = cleanText s := by
  show String.mk (pyTitle (pyStrip (pyTitle (pyStrip s.data)))) =
    String.mk (pyTitle (pyStrip s.data))
  rw [pyStrip_title]
  show String.mk (titleAux false (titleAux false (pyStrip s.data))) = _
  rw [titleAux_idem]
  rfl



theorem mem_cleanRow_ci (parse : Value → Option Nat) (r : Row) (p : String × Value)
    (hp : p ∈ cleanRow parse r) (hk : p.1 = "check_in_date") :
    p.2 = optDate (parse (getCell r "check_in_date")) := by
  unfold cleanRow at hp
  have h1 := mem_setCell_other _ _ _ p hp (by rw [hk]; decide)
  have h2 := mem_setCell_other _ _ _ p h1 (by rw [hk]; decide)
  have h3 := mem_setCell_other _ _ _ p h2 (by rw [hk]; decide)
  exact mem_setCell_key _ _ _ p h3 hk

theorem mem_cleanRow_co (parse : Value → Option Nat) (r : Row) (p : String × Value)
    (hp : p ∈ cleanRow parse r) (hk : p.1 = "check_out_date") :
    p.2 = optDate (parse (getCell r "check_out_date")) := by
  unfold cleanRow at hp
  have h1 := mem_setCell_other _ _ _ p hp (by rw [hk]; decide)
  have h2 := mem_setCell_other _ _ _ p h1 (by rw [hk]; decide)
  exact mem_setCell_key _ _ _ p h2 hk

theorem mem_cleanRow_oc (parse : Value → Option Nat) (r : Row) (p : String × Value)
    (hp : p ∈ cleanRow parse r) (hk : p.1 = "owner_company") :
    p.2 = Value.str (cleanText (valueToStr (getCell r "owner_company"))) := by
  unfold cleanRow at hp
  have h1 := mem_setCell_other _ _ _ p hp (by rw [hk]; decide)
  exact mem_setCell_key _ _ _ p h1 hk

theorem mem_cleanRow_cc (parse : Value → Option Nat) (r : Row) (p : String × Value)
    (hp : p ∈ cleanRow parse r) (hk : p.1 = "owner_company_country") :
    p.2 = Value.str (cleanText (valueToStr (getCell r "owner_company_country"))) := by
  unfold cleanRow at hp
  exact mem_setCell_key _ _ _ p hp hk

theorem cleanRow_fix (parse : Value → Option Nat)
    (hparse : ∀ n, parse (Value.date n) = some n) (r : Row)
    (hok : dateOrderOk (cleanRow parse r) = true) :
    cleanRow parse (cleanRow parse r) = cleanRow parse r := by
  have hci := getCell_cleanRow_in parse r
  have hco := getCell_cleanRow_out parse r
  have hoc := getCell_cleanRow_company parse r
  have hcc := getCell_cleanRow_country parse r
  rw [dateOrderOk] at hok
  have hd : ∃ d1 d2, getCell (cleanRow parse r) "check_in_date" = Value.date d1 ∧
      getCell (cleanRow parse r) "check_out_date" = Value.date d2 := by
    cases hcin : getCell (cleanRow parse r) "check_in_date" <;>
      cases hcout : getCell (cleanRow parse r) "check_out_date" <;>
      rw [hcin, hcout] at hok <;>
      first
        | exact ⟨_, _, rfl, rfl⟩
        | simp [cmpGe] at hok
  obtain ⟨d1, d2, h1, h2⟩ := hd
  have hv1 : optDate (parse (getCell (cleanRow parse r) "check_in_date")) =
      getCell (cleanRow parse r) "check_in_date" := by
    rw [h1, hparse]
    rfl
  have hv2 : optDate (parse (getCell (cleanRow parse r) "check_out_date")) =
      getCell (cleanRow parse r) "check_out_date" := by
    rw [h2, hparse]
    rfl
  have hv3 : Value.str (cleanText (valueToStr (getCell (cleanRow parse r) "owner_company"))) =
      getCell (cleanRow parse r) "owner_company" := by
    rw [hoc]
    show Value.str (cleanText (cleanText (valueToStr (getCell r "owner_company")))) = _
    rw [cleanText_idem]
  have hv4 : Value.str (cleanText (valueToStr
        (getCell (cleanRow parse r) "owner_company_country"))) =
      getCell (cleanRow parse r) "owner_company_country" := by
    rw [hcc]
    show Value.str (cleanText (cleanText (valueToStr (getCell r "owner_company_country")))) = _
    rw [cleanText_idem]
  have hKci : hasKey (cleanRow parse r) "check_in_date" = true :=
    hasKey_cleanRow parse r _ (by decide) (fun hh => absurd hh (by decide))
  have hKco : hasKey (cleanRow parse r) "check_out_date" = true :=
    hasKey_cleanRow parse r _ (by decide) (fun hh => absurd hh (by decide))
  have hKoc : hasKey (cleanRow parse r) "owner_company" = true :=
    hasKey_cleanRow parse r _ (by decide) (fun hh => absurd hh (by decide))
  have hKcc : hasKey (cleanRow parse r) "owner_company_country" = true :=
    hasKey_cleanRow parse r _ (by decide) (fun hh => absurd hh (by decide))
  have e1 : setCell (cleanRow parse r) "check_in_date"
      (getCell (cleanRow parse r) "check_in_date") = cleanRow parse r :=
    setCell_eq_self _ _ _ hKci
      (fun p hp hk => by rw [mem_cleanRow_ci parse r p hp hk, hci])
  have e2 : setCell (cleanRow parse r) "check_out_date"
      (getCell (cleanRow parse r) "check_out_date") = cleanRow parse r :=
    setCell_eq_self _ _ _ hKco
      (fun p hp hk => by rw [mem_cleanRow_co parse r p hp hk, hco])
  have e3 : setCell (cleanRow parse r) "owner_company"
      (getCell (cleanRow parse r) "owner_company") = cleanRow parse r :=
    setCell_eq_self _ _ _ hKoc
      (fun p hp hk => by rw [mem_cleanRow_oc parse r p hp hk, hoc])
  have e4 : setCell (cleanRow parse r) "owner_company_country"
      (getCell (cleanRow parse r) "owner_company_country") = cleanRow parse r :=
    setCell_eq_self _ _ _ hKcc
      (fun p hp hk => by rw [mem_cleanRow_cc parse r p hp hk, hcc])
  show setCell (setCell (setCell (setCell (cleanRow parse r)
      "check_in_date" (optDate (parse (getCell (cleanRow parse r) "check_in_date"))))
      "check_out_date" (optDate (parse (getCell (cleanRow parse r) "check_out_date"))))
      "owner_company" (Value.str (cleanText (valueToStr
        (getCell (cleanRow parse r) "owner_company")))))
      "owner_company_country" (Value.str (cleanText (valueToStr
        (getCell (cleanRow parse r) "owner_company_country")))) = cleanRow parse r
  rw [hv1, e1, hv2, e2, hv3, e3, hv4, e4]



/-- C6: normalization is idempotent — applying `transform_data`'s cleaning
to its own output frame returns that frame unchanged (dates are already
parsed, so a parser fixing parsed dates — as `pd.to_datetime` does — leaves
them alone; text is already stripped and title-cased; ids are already
unique and non-null; every row already passes the date-order filter). -/
theorem claim_C6_idempotent (parse : Value → Option Nat)
    (hparse : ∀ n, parse (Value.date n) = some n)
    (df out : DF) (h : transformDF parse df = Except.ok out) :
    transformDF parse out = Except.ok out := by
  obtain ⟨hfind, hout⟩ := transformDF_ok_inv parse df out h
  have hrows : out.rows = ((dedupLast (df.rows.filter
      (fun r => decide (keyOf r ≠ Value.null)))).map (cleanRow parse)).filter dateOrderOk := by
    rw [hout]
  have hcols : out.cols = df.cols := by rw [hout]
  have hsurv : ∀ r ∈ out.rows, ∃ r₀, r₀ ∈ dedupLast (df.rows.filter
      (fun r => decide (keyOf r ≠ Value.null))) ∧ r = cleanRow parse r₀ := by
    intro r hr
    rw [hrows] at hr
    obtain ⟨r₀, hr₀, hre⟩ := List.mem_map.mp (List.mem_of_mem_filter hr)
    exact ⟨r₀, hr₀, hre.symm⟩
  have hkeys : ∀ r ∈ out.rows, keyOf r ≠ Value.null := by
    intro r hr
    obtain ⟨r₀, hr₀, rfl⟩ := hsurv r hr
    rw [keyOf_cleanRow]
    obtain ⟨-, -, -, hnull, -⟩ := mem_survivors_split df.rows r₀ hr₀
    exact hnull
  have hpair : out.rows.Pairwise (fun a b => keyOf a ≠ keyOf b) := by
    rw [hrows]
    refine List.Pairwise.sublist (List.filter_sublist _) ?_
    rw [List.pairwise_map]
    refine (dedupLast_pairwise _).imp ?_
    intro a b hab
    rwa [keyOf_cleanRow, keyOf_cleanRow]
  have hdok : ∀ r ∈ out.rows, dateOrderOk r = true := by
    intro r hr
    rw [hrows] at hr
    exact List.of_mem_filter hr
  have hfixed : ∀ r ∈ out.rows, cleanRow parse r = r := by
    intro r hr
    have hd := hdok r hr
    obtain ⟨r₀, hr₀, rfl⟩ := hsurv r hr
    exact cleanRow_fix parse hparse r₀ hd
  have hfind2 : requiredCols.find? (fun c => !(out.cols.contains c)) = none := by
    rw [hcols]
    exact hfind
  have hfilter1 : out.rows.filter (fun r => decide (keyOf r ≠ Value.null)) = out.rows :=
    List.filter_eq_self.mpr (fun r hr => by simpa using hkeys r hr)
  have hdedup : dedupLast out.rows = out.rows := dedupLast_eq_self _ hpair
  have hmap : out.rows.map (cleanRow parse) = out.rows := by
    conv_rhs => rw [← List.map_id out.rows]
    exact List.map_congr_left (fun r hr => by rw [hfixed r hr]; rfl)
  have hfilter2 : out.rows.filter dateOrderOk = out.rows := List.filter_eq_self.mpr hdok
  rw [transformDF_ok parse out hfind2, hfilter1, hdedup, hmap, hfilter2]

/-- C6 witness: re-normalizing the cleaned table obtained from the
two-record example returns it unchanged. -/
theorem claim_C6_idempotent_witness :
    transformDF isoParse
      ⟨["booking_id", "check_in_date", "check_out_date", "owner_company",
        "owner_company_country"],
       [[("booking_id", Value.int 1), ("check_in_date", Value.date 20240201),
         ("check_out_date", Value.date 20240205), ("owner_company", Value.str "Acme Corp"),
         ("owner_company_country", Value.str "Uk")]]⟩ =
    Except.ok
      ⟨["booking_id", "check_in_date", "check_out_date", "owner_company",
        "owner_company_country"],
       [[("booking_id", Value.int 1), ("check_in_date", Value.date 20240201),
         ("check_out_date", Value.date 20240205), ("owner_company", Value.str "Acme Corp"),
         ("owner_company_country", Value.str "Uk")]]⟩ := by
  have hok : transformDF isoParse (toDF [exBooking1, exBooking2]) =
      Except.ok ⟨["booking_id", "check_in_date", "check_out_date", "owner_company",
                  "owner_company_country"],
        [[("booking_id", Value.int 1), ("check_in_date", Value.date 20240201),
          ("check_out_date", Value.date 20240205), ("owner_company", Value.str "Acme Corp"),
          ("owner_company_country", Value.str "Uk")]]⟩ := by decide
  exact claim_C6_idempotent isoParse (fun n => rfl) _ _ hok


end ETL
